import Mathlib

/-!
Shallow embedding of the sweep-and-approximate subsystem of the Fornjot
B-Rep kernel, together with the trapezoidation tree and vertex ordering of
its 2-D triangulation component.  Scalars of the geometry kernel are
modelled as exact rational numbers; machine floating point is replaced by
ℚ throughout.  Fallible code paths (assertion failures, panics) are
modelled as error results of `Except` / dedicated result types.
-/

namespace Fj

/-- A point or vector in surface-local 2-D coordinates (u, v). -/
abbrev Q2 : Type := ℚ × ℚ

/-- A point or vector in ambient 3-D coordinates. -/
abbrev Q3 : Type := ℚ × ℚ × ℚ

/-- `GlobalVertex`: a point in ambient 3-D space. -/
structure GlobalVertex where
  position : Q3
deriving DecidableEq

/-- `CurveKind<3>`: a curve in 3-D space, line or circle kind with its
parameters (a circle is given by center and two spanning axes). -/
inductive CurveKind where
  | line (origin direction : Q3)
  | circle (center xAxis yAxis : Q3)
deriving DecidableEq

/-- `GlobalCurve`: a curve in 3-D space; its `path()` accessor exposes the
curve kind. -/
structure GlobalCurve where
  path : CurveKind
deriving DecidableEq

/-- `GlobalEdge`: a bounded curve segment in 3-D, a `GlobalCurve` plus the
ordered pair of bounding `GlobalVertex` values. -/
structure GlobalEdge where
  curve : GlobalCurve
  vertices : GlobalVertex × GlobalVertex
deriving DecidableEq

/-- `Surface`: a 2-D parametric patch, the sweep of a curve (the `u`
direction) along a path vector (the `v` direction). -/
structure Surface where
  u : CurveKind
  v : Q3
deriving DecidableEq

/-- `SurfacePath` / `CurveKind<2>`: a curve expressed in a surface's local
2-D coordinates. -/
inductive SurfacePath where
  | line (origin direction : Q2)
  | circle (center xAxis yAxis : Q2)
deriving DecidableEq

/-- `Curve`: a curve expressed in a surface's local coordinates, paired
with its global form. -/
structure Curve where
  surface : Surface
  kind : SurfacePath
  globalForm : GlobalCurve
deriving DecidableEq

/-- `SurfaceVertex`: a point expressed in a surface's 2-D coordinates,
referencing its global counterpart. -/
structure SurfaceVertex where
  position : Q2
  surface : Surface
  globalForm : GlobalVertex
deriving DecidableEq

/-- `Vertex`: a point on a `Curve`, carrying its 1-D curve-parameter
position together with its surface-local and global forms. -/
structure Vertex where
  position : ℚ
  curve : Curve
  surfaceForm : SurfaceVertex
  globalForm : GlobalVertex
deriving DecidableEq

/-- `HalfEdge` / `Edge`: a bounded segment of a `Curve`, an ordered pair
of vertices plus the referenced `GlobalEdge`. -/
structure HalfEdge where
  curve : Curve
  vertices : Vertex × Vertex
  globalForm : GlobalEdge
deriving DecidableEq

/-- In the excerpts `Edge` and `HalfEdge` are the same record shape. -/
abbrev Edge : Type := HalfEdge

/-- `Cycle`: an ordered closed loop of edges bounding a face. -/
structure Cycle where
  surface : Surface
  edges : List Edge
deriving DecidableEq

/-- `Color`: an opaque color tag attached to faces. -/
structure Color where
  rgba : ℕ
deriving DecidableEq

/-- `Face`: a bounded region of a surface with its bounding cycle and a
color tag. -/
structure Face where
  surface : Surface
  cycle : Cycle
  color : Color
deriving DecidableEq

/-- Modelled from the spec: the sweep `Path` type (not in the excerpt)
wraps the 3-D sweep vector (`inner`) and exposes the direction-sign
predicate used by the normalization step of the edge sweep; the predicate
is carried as an abstract flag. -/
structure Path where
  inner : Q3
  isNegativeDirection : Bool
deriving DecidableEq

/-- `Line::from_points` for 3-D points: origin is the first point, the
direction is the difference of the two points. -/
def lineFromPoints3 (a b : Q3) : CurveKind :=
  CurveKind.line a (b - a)

/-- `Line::from_points` for 2-D points. -/
def lineFromPoints2 (a b : Q2) : SurfacePath :=
  SurfacePath.line a (b - a)

/-- `Line::from_points_with_line_coords`: builds the 2-D line whose line
coordinate `p.1` maps to the point `p.2`, for both given pairs; the
direction is the point difference divided by the coordinate difference. -/
def lineFromPointsWithLineCoords (p0 p1 : ℚ × Q2) : SurfacePath :=
  let direction := (1 / (p1.1 - p0.1)) • (p1.2 - p0.2)
  SurfacePath.line (p0.2 - p0.1 • direction) direction

/-- An interpretation of the trigonometric functions used by circle
parametrizations; the kernel's scalar type has exact `cos`/`sin`, which
have no computable counterpart on ℚ, so the evaluation of circles is
parametrized by any interpretation satisfying the parity laws. -/
structure Trig where
  cos : ℚ → ℚ
  sin : ℚ → ℚ
  cos_neg : ∀ t, cos (-t) = cos t
  sin_neg : ∀ t, sin (-t) = -sin t

/-- Parametrization of a 3-D curve kind: lines by `origin + t • direction`,
circles by `center + cos t • xAxis + sin t • yAxis`. -/
def evalCurveKind (T : Trig) : CurveKind → ℚ → Q3
  | CurveKind.line origin direction, t => origin + t • direction
  | CurveKind.circle center xAxis yAxis, t =>
      center + T.cos t • xAxis + T.sin t • yAxis

/-- Parametrization of a surface-local curve kind. -/
def evalSurfacePath (T : Trig) : SurfacePath → ℚ → Q2
  | SurfacePath.line origin direction, t => origin + t • direction
  | SurfacePath.circle center xAxis yAxis, t =>
      center + T.cos t • xAxis + T.sin t • yAxis

/-- Parametrization of a surface: evaluate the u-curve at the first
coordinate, then translate along the v-direction scaled by the second. -/
def evalSurface (T : Trig) (s : Surface) (p : Q2) : Q3 :=
  evalCurveKind T s.u p.1 + p.2 • s.v

/-- Local/global consistency of a `Vertex`: evaluating its curve's
parametrization at its 1-D coordinate and then the owning surface's
parametrization must give the position stored in its global form. -/
def vertexConsistent (T : Trig) (v : Vertex) : Prop :=
  evalSurface T v.curve.surface (evalSurfacePath T v.curve.kind v.position) =
    v.globalForm.position

end Fj

namespace Trap

/-- Trapezoidation `Vertex`: a 2-D point; coordinates are modelled as
exact rationals. -/
structure Vertex where
  x : ℚ
  y : ℚ
deriving DecidableEq

/-- `Vertex::is_upper`: higher-ness is primarily decided by the y
coordinate; on equal y the left (smaller x) vertex counts as upper; a
vertex is never upper than itself. -/
def Vertex.is_upper (a other : Vertex) : Bool :=
  if a.y > other.y then
    true
  else if a.y < other.y then
    false
  else
    if a.y = other.y then
      if a.x < other.x then
        true
      else if a.x > other.x then
        false
      else
        false
    else
      false

/-- `Vertex::is_lower`: delegates to `is_upper` with the arguments
swapped. -/
def Vertex.is_lower (a other : Vertex) : Bool :=
  other.is_upper a

/-- `Relation`: how a child node relates to its parent branch. -/
inductive Relation where
  | above
  | below
deriving DecidableEq

/-- `Branch`: the payload of a branch node, an edge or a vertex of the
trapezoidation. -/
inductive Branch where
  | edge (lower upper : Vertex)
  | vertex (v : Vertex)
deriving DecidableEq

/-- A node of the trapezoidation tree: a leaf (trapezoid) or a branch
with two children, each carrying an optional parent id.  Modelled from
the usage of the generic `Nodes` container: ids are indices into the node
list. -/
inductive Node where
  | leaf (parent : Option ℕ)
  | branch (parent : Option ℕ) (above below : ℕ) (val : Branch)
deriving DecidableEq

/-- The parent id of a node. -/
def Node.parent : Node → Option ℕ
  | Node.leaf p => p
  | Node.branch p _ _ _ => p

/-- Replace the parent id of a node, keeping everything else. -/
def Node.withParent (n : Node) (p : Option ℕ) : Node :=
  match n with
  | Node.leaf _ => Node.leaf p
  | Node.branch _ a b v => Node.branch p a b v

/-- The trapezoidation search tree: a list-backed arena of nodes, ids are
list indices. -/
structure Tree where
  nodes : List Node
deriving DecidableEq

/-- `Tree::new`: a tree holding a single root leaf. -/
def Tree.new : Tree :=
  ⟨[Node.leaf none]⟩

/-- `Tree::split`: split an existing trapezoid leaf; the provided branch
takes its place in the tree, with the existing trapezoid and a new one as
children.  `none` models the panic paths (unknown id, parent that is not
a branch, or parent unrelated to the split leaf).  The parent-relink arm
for a leaf that is the `below` child of its parent updates the parent's
`above` field, exactly as the source does. -/
def Tree.split (t : Tree) (splitAt : ℕ) (splitWith : Branch) :
    Option (Tree × ℕ) :=
  let newLeafId := t.nodes.length
  let nodes1 := t.nodes ++ [Node.leaf none]
  let newBranchId := nodes1.length
  let nodes2 := nodes1 ++ [Node.leaf none]
  match nodes2.get? splitAt with
  | none => none
  | some old =>
    let oldParent := old.parent
    let nodes3 := nodes2.set splitAt (old.withParent (some newBranchId))
    let step : Option (List Node) :=
      match oldParent with
      | none => some nodes3
      | some pid =>
        match nodes3.get? pid with
        | some (Node.branch pp pa pb pv) =>
          if splitAt = pa then
            some (nodes3.set pid (Node.branch pp newBranchId pb pv))
          else if splitAt = pb then
            some (nodes3.set pid (Node.branch pp newBranchId pb pv))
          else
            none
        | _ => none
    match step with
    | none => none
    | some nodes4 =>
      let nodes5 :=
        nodes4.set newBranchId
          (Node.branch oldParent splitAt newLeafId splitWith)
      let nodes6 := nodes5.set newLeafId (Node.leaf (some newBranchId))
      some (⟨nodes6⟩, newBranchId)

/-- Result of `Tree::parent_of`: no parent, a related parent with its
branch payload and the child's relation, or the panic paths. -/
inductive ParentQuery where
  | noParent
  | related (parentId : ℕ) (val : Branch) (rel : Relation)
  | panicked
deriving DecidableEq

/-- `Tree::parent_of`: look up a node's parent branch and which child
field of the parent refers back to the node; hitting a parent that does
not relate to the node, or that is not a branch, is a panic. -/
def Tree.parent_of (t : Tree) (id : ℕ) : ParentQuery :=
  match t.nodes.get? id with
  | none => ParentQuery.panicked
  | some n =>
    match n.parent with
    | none => ParentQuery.noParent
    | some pid =>
      match t.nodes.get? pid with
      | some (Node.branch _ pa pb pv) =>
        if id = pa then
          ParentQuery.related pid pv Relation.above
        else if id = pb then
          ParentQuery.related pid pv Relation.below
        else
          ParentQuery.panicked
      | _ => ParentQuery.panicked

/-- The tree obtained by splitting the root leaf of a fresh tree and then
splitting the `below` child of the resulting branch. -/
def splitBelowTwice : Option Tree :=
  match Tree.new.split 0 (Branch.vertex ⟨0, 0⟩) with
  | none => none
  | some (t1, _) =>
    match t1.split 1 (Branch.vertex ⟨1, 1⟩) with
    | none => none
    | some (t2, _) => some t2

end Trap

namespace Fj

/-- `SweepError`: contract failures of the sweep operations; the
`assert_eq!` guards of the vertex sweep are modelled as this error. -/
inductive SweepError where
  | invalidSweepInput
deriving DecidableEq

/-- `GlobalVertex::sweep`: translate the point by the path, build a
straight global curve between the two points, and return the global edge
over both global vertices. -/
def sweepGlobalVertex (v : GlobalVertex) (path : Q3) : GlobalEdge :=
  let b : GlobalVertex := ⟨v.position + path⟩
  let curve : GlobalCurve := ⟨lineFromPoints3 v.position b.position⟩
  ⟨curve, (v, b)⟩

/-- Body of the vertex sweep, after the input guards have passed: build
the global edge, the surface-local line from `(t, 0)` to `(t, 1)`, and
the two vertex pairs referencing the corresponding global vertices. -/
def vertexSweepHalfEdge (vertex : Vertex) (surface : Surface) (path : Q3) :
    HalfEdge :=
  let edgeGlobal := sweepGlobalVertex vertex.globalForm path
  let pA : Q2 := (vertex.position, 0)
  let pB : Q2 := (vertex.position, 1)
  let curve : Curve := ⟨surface, lineFromPoints2 pA pB, edgeGlobal.curve⟩
  let svA : SurfaceVertex := ⟨pA, surface, edgeGlobal.vertices.1⟩
  let svB : SurfaceVertex := ⟨pB, surface, edgeGlobal.vertices.2⟩
  let vA : Vertex := ⟨pA.2, curve, svA, edgeGlobal.vertices.1⟩
  let vB : Vertex := ⟨pB.2, curve, svB, edgeGlobal.vertices.2⟩
  ⟨curve, (vA, vB), edgeGlobal⟩

/-- `Sweep for (Vertex, Surface)`: check that the vertex's curve's global
form equals the surface's u-curve and that the path equals the surface's
v-direction; on violation the operation aborts, otherwise it produces the
half-edge. -/
def sweepVertex (vertex : Vertex) (surface : Surface) (path : Q3) :
    Except SweepError HalfEdge :=
  if vertex.curve.globalForm.path = surface.u ∧ path = surface.v then
    Except.ok (vertexSweepHalfEdge vertex surface path)
  else
    Except.error SweepError.invalidSweepInput

/-- Reversal of a 3-D curve kind: a line keeps its origin and flips its
direction, a circle flips the sign of its second axis. -/
def CurveKind.reverse : CurveKind → CurveKind
  | CurveKind.line origin direction => CurveKind.line origin (-direction)
  | CurveKind.circle center xAxis yAxis =>
      CurveKind.circle center xAxis (-yAxis)

/-- Reversal of a surface-local curve kind. -/
def SurfacePath.reverse : SurfacePath → SurfacePath
  | SurfacePath.line origin direction => SurfacePath.line origin (-direction)
  | SurfacePath.circle center xAxis yAxis =>
      SurfacePath.circle center xAxis (-yAxis)

/-- `Reverse for Edge`, as used by the orientation pass: reversing an
edge produces a new value with the two vertices swapped.  Modelled from
the spec: "a modification (e.g., reversing an edge) produces a new
value"; the pass only relies on the endpoint order. -/
def HalfEdge.reverse (e : HalfEdge) : HalfEdge :=
  ⟨e.curve, (e.vertices.2, e.vertices.1), e.globalForm⟩

/-- `Edge::reverse_including_curve`.  Modelled from the spec: "reverse
the edge (including its curve) first": the curve kind and its global form
are reversed, the vertices are swapped with their curve coordinates
negated (so each vertex denotes the same point of the reversed curve),
and the global edge is reversed likewise. -/
def HalfEdge.reverseIncludingCurve (e : HalfEdge) : HalfEdge :=
  let curve : Curve :=
    ⟨e.curve.surface, e.curve.kind.reverse, ⟨e.curve.globalForm.path.reverse⟩⟩
  let flip : Vertex → Vertex := fun v =>
    ⟨-v.position, curve, v.surfaceForm, v.globalForm⟩
  ⟨curve, (flip e.vertices.2, flip e.vertices.1),
    ⟨⟨e.globalForm.curve.path.reverse⟩,
      (e.globalForm.vertices.2, e.globalForm.vertices.1)⟩⟩

/-- Translation of a 3-D curve kind by a vector, as used to build the top
curve's global form.  Modelled from the spec: "translating the bottom
curve's global form by `path`". -/
def CurveKind.translate (k : CurveKind) (path : Q3) : CurveKind :=
  match k with
  | CurveKind.line origin direction => CurveKind.line (origin + path) direction
  | CurveKind.circle center xAxis yAxis =>
      CurveKind.circle (center + path) xAxis yAxis

/-- `Curve::sweep`: sweeping an edge's curve along the path builds the
side surface.  Modelled from the spec: the surface's u-curve is the swept
curve's global form and its v-direction is the path. -/
def sideSurface (edge : Edge) (path : Path) : Surface :=
  ⟨edge.curve.globalForm.path, path.inner⟩

/-- The `bottom_edge` of the edge sweep: the input edge re-expressed in
the side surface, its vertices at surface coordinates `(t, 0)` on a line
in surface-local coordinates, reusing the original global forms. -/
def bottomEdgeOf (edge : Edge) (surface : Surface) : Edge :=
  let pcs0 : ℚ × Q2 := (edge.vertices.1.position, (edge.vertices.1.position, 0))
  let pcs1 : ℚ × Q2 := (edge.vertices.2.position, (edge.vertices.2.position, 0))
  let curve : Curve :=
    ⟨surface, lineFromPointsWithLineCoords pcs0 pcs1, edge.curve.globalForm⟩
  let mkV : Vertex → Q2 → Vertex := fun v p =>
    ⟨v.position, curve, ⟨p, surface, v.globalForm⟩, v.globalForm⟩
  ⟨curve, (mkV edge.vertices.1 pcs0.2, mkV edge.vertices.2 pcs1.2),
    edge.globalForm⟩

/-- The `top_edge` of the edge sweep: the bottom curve's global form
translated by the path, vertices at surface coordinates `(t, 1)`, and a
`GlobalEdge` built directly from the two side edges' far global
vertices. -/
def topEdgeOf (bottomEdge : Edge) (sides : Edge × Edge) (surface : Surface)
    (path : Path) : Edge :=
  let g0 := sides.1.vertices.2.globalForm
  let g1 := sides.2.vertices.2.globalForm
  let pcs0 : ℚ × Q2 :=
    (bottomEdge.vertices.1.position, (bottomEdge.vertices.1.position, 1))
  let pcs1 : ℚ × Q2 :=
    (bottomEdge.vertices.2.position, (bottomEdge.vertices.2.position, 1))
  let curve : Curve :=
    ⟨surface, lineFromPointsWithLineCoords pcs0 pcs1,
      ⟨bottomEdge.curve.globalForm.path.translate path.inner⟩⟩
  let globalEdge : GlobalEdge := ⟨curve.globalForm, (g0, g1)⟩
  let mkV : Vertex → Q2 → GlobalVertex → Vertex := fun v p g =>
    ⟨v.position, curve, ⟨p, surface, g⟩, g⟩
  ⟨curve, (mkV bottomEdge.vertices.1 pcs0.2 g0,
    mkV bottomEdge.vertices.2 pcs1.2 g1), globalEdge⟩

/-- The surface-local first vertex of an edge. -/
def edgeFirst (e : Edge) : SurfaceVertex :=
  e.vertices.1.surfaceForm

/-- The surface-local last vertex of an edge. -/
def edgeLast (e : Edge) : SurfaceVertex :=
  e.vertices.2.surfaceForm

/-- One step of the orientation pass: if the surface-local last vertex of
the previous edge does not equal the surface-local first vertex of the
next edge, reverse the next edge. -/
def orientStep (prev next : Edge) : Edge :=
  if edgeLast prev = edgeFirst next then next else next.reverse

/-- The orientation pass of the edge sweep: walk the 4-edge loop
cyclically, correcting each next edge against the (already corrected)
previous one; the final step compares the last edge against the first. -/
def orientationPass (es : Edge × Edge × Edge × Edge) :
    Edge × Edge × Edge × Edge :=
  let f1 := orientStep es.1 es.2.1
  let f2 := orientStep f1 es.2.2.1
  let f3 := orientStep f2 es.2.2.2
  let f0 := orientStep f3 es.1
  (f0, f1, f2, f3)

/-- Flatten an edge quadruple into the list the cycle stores. -/
def quadToList (es : Edge × Edge × Edge × Edge) : List Edge :=
  [es.1, es.2.1, es.2.2.1, es.2.2.2]

/-- Assemble the corrected loop into a `Cycle`. -/
def cycleOf (surface : Surface) (es : Edge × Edge × Edge × Edge) : Cycle :=
  ⟨surface, quadToList (orientationPass es)⟩

/-- The loop `[bottom, side_b, top, side_a]` the edge sweep assembles
(side edges written via the always-taken success branch of the vertex
sweep). -/
def sweepQuad (edge : Edge) (path : Path) : Edge × Edge × Edge × Edge :=
  (bottomEdgeOf edge (sideSurface edge path),
    vertexSweepHalfEdge (bottomEdgeOf edge (sideSurface edge path)).vertices.2
      (sideSurface edge path) path.inner,
    topEdgeOf (bottomEdgeOf edge (sideSurface edge path))
      (vertexSweepHalfEdge
        (bottomEdgeOf edge (sideSurface edge path)).vertices.1
        (sideSurface edge path) path.inner,
        vertexSweepHalfEdge
          (bottomEdgeOf edge (sideSurface edge path)).vertices.2
          (sideSurface edge path) path.inner)
      (sideSurface edge path) path,
    vertexSweepHalfEdge (bottomEdgeOf edge (sideSurface edge path)).vertices.1
      (sideSurface edge path) path.inner)

/-- The edge sweep after direction normalization: build the side surface,
the bottom edge, the two side edges (by the vertex sweep), the top edge,
and assemble `[bottom, side_b, top, side_a]` through the orientation pass
into the face's cycle. -/
def sweepEdgeNormalized (edge : Edge) (color : Color) (path : Path) :
    Except SweepError Face :=
  do
  let side0 ← sweepVertex (bottomEdgeOf edge (sideSurface edge path)).vertices.1
    (sideSurface edge path) path.inner
  let side1 ← sweepVertex (bottomEdgeOf edge (sideSurface edge path)).vertices.2
    (sideSurface edge path) path.inner
  Except.ok ⟨sideSurface edge path,
    cycleOf (sideSurface edge path)
      (bottomEdgeOf edge (sideSurface edge path), side1,
        topEdgeOf (bottomEdgeOf edge (sideSurface edge path)) (side0, side1)
          (sideSurface edge path) path,
        side0),
    color⟩

/-- The direction normalization at the head of the edge sweep: if the
path runs in the negative direction, reverse the edge including its
curve. -/
def normalizedInput (edge : Edge) (path : Path) : Edge :=
  if path.isNegativeDirection then edge.reverseIncludingCurve else edge

/-- `Sweep for (Edge, Color)`: normalize the edge's direction against the
path first, then run the normalized sweep. -/
def sweepEdge (edge : Edge) (color : Color) (path : Path) :
    Except SweepError Face :=
  sweepEdgeNormalized (normalizedInput edge path) color path

/-- Loop closure of an edge list: every edge's surface-local last vertex
equals the cyclically next edge's surface-local first vertex. -/
def loopClosed (edges : List Edge) : Prop :=
  ∀ i : Fin edges.length,
    edgeLast (edges.get i) =
      edgeFirst (edges.get ⟨(i.val + 1) % edges.length, Nat.mod_lt _ i.pos⟩)

/-- Modelled from the spec: a boundary curve of a face as the
approximation engine sees it, identified by its geometric content (the
faces of a shell reference boundary-curve values; the cache is keyed by
curve identity). -/
structure BoundaryCurve where
  a : Q3
  b : Q3
deriving DecidableEq

/-- Squared euclidean norm of a 3-D vector. -/
def normSq (v : Q3) : ℚ :=
  v.1 * v.1 + v.2.1 * v.2.1 + v.2.2 * v.2.2

/-- Modelled from the spec: the tessellation of one boundary curve within
a tolerance, an ordered point sequence from exact endpoint to exact
endpoint, refined once when the chord is longer than the tolerance. -/
def curveApproxPoints (c : BoundaryCurve) (tolerance : ℚ) : List Q3 :=
  if normSq (c.b - c.a) ≤ tolerance * tolerance then
    [c.a, c.b]
  else
    [c.a, (1 / 2 : ℚ) • (c.a + c.b), c.b]

/-- Modelled from the spec: a face, for the purposes of the approximation
engine, is its ordered list of boundary curves. -/
structure ApproxFace where
  boundary : List BoundaryCurve
deriving DecidableEq

/-- Modelled from the spec: a shell is a collection of faces. -/
structure Shell where
  faces : List ApproxFace
deriving DecidableEq

/-- Modelled from the spec: `ApproxCache`, a mutable cache keyed by curve
identity, threaded through one traversal; an association list of curves
and their computed tessellations. -/
abbrev ApproxCache : Type := List (BoundaryCurve × List Q3)

/-- Cache lookup-or-compute: the first miss computes and stores, later
hits reuse the stored tessellation verbatim. -/
def cacheLookupOrCompute (cache : ApproxCache) (c : BoundaryCurve)
    (tolerance : ℚ) : List Q3 × ApproxCache :=
  match cache.find? (fun e => decide (e.1 = c)) with
  | some e => (e.2, cache)
  | none =>
    let r := curveApproxPoints c tolerance
    (r, (c, r) :: cache)

/-- Approximate a list of boundary curves: concatenate their
tessellations, each obtained through the shared cache, threading the
cache through. -/
def boundaryApproxWithCache (cs : List BoundaryCurve) (tolerance : ℚ)
    (cache : ApproxCache) : List Q3 × ApproxCache :=
  match cs with
  | [] => ([], cache)
  | c :: rest =>
    let step := cacheLookupOrCompute cache c tolerance
    let more := boundaryApproxWithCache rest tolerance step.2
    (step.1 ++ more.1, more.2)

/-- Approximate one face: its boundary curves' tessellations through the
shared cache. -/
def faceApproxWithCache (f : ApproxFace) (tolerance : ℚ)
    (cache : ApproxCache) : List Q3 × ApproxCache :=
  boundaryApproxWithCache f.boundary tolerance cache

/-- Approximate a list of faces, threading the shared cache. -/
def facesApproxWithCache (fs : List ApproxFace) (tolerance : ℚ)
    (cache : ApproxCache) : List (List Q3) × ApproxCache :=
  match fs with
  | [] => ([], cache)
  | f :: rest =>
    let fa := faceApproxWithCache f tolerance cache
    let more := facesApproxWithCache rest tolerance fa.2
    (fa.1 :: more.1, more.2)

/-- `Approx for &Shell::approx_with_cache`: approximate the shell's faces
with the given tolerance and shared cache. -/
def shellApproxWithCache (s : Shell) (tolerance : ℚ) (cache : ApproxCache) :
    List (List Q3) × ApproxCache :=
  facesApproxWithCache s.faces tolerance cache

/-- A cache is valid for a tolerance when every stored entry equals the
tessellation the engine would compute for its curve. -/
def validCache (tolerance : ℚ) (cache : ApproxCache) : Prop :=
  ∀ e ∈ cache, e.2 = curveApproxPoints e.1 tolerance

/-- The cache-free tessellation of a boundary list: each curve
approximated directly, results concatenated. -/
def boundaryApproxPure (cs : List BoundaryCurve) (tolerance : ℚ) :
    List Q3 :=
  (cs.map (fun c => curveApproxPoints c tolerance)).flatten

/-- Both vertices of an edge satisfy local/global consistency. -/
def edgeVerticesConsistent (T : Trig) (e : Edge) : Prop :=
  vertexConsistent T e.vertices.1 ∧ vertexConsistent T e.vertices.2

/-- A concrete trigonometric interpretation, used to instantiate the
consistency theorems at concrete inputs. -/
def constTrig : Trig where
  cos := fun _ => 1
  sin := fun _ => 0
  cos_neg := fun _ => rfl
  sin_neg := fun _ => neg_zero.symm

/-- The xz-plane as a swept surface: the x-axis swept along the
z-direction. -/
def xzPlane : Surface :=
  ⟨CurveKind.line (0, 0, 0) (1, 0, 0), (0, 0, 1)⟩

/-- The u-axis of the xz-plane as a surface-local curve. -/
def uAxisCurve : Curve :=
  ⟨xzPlane, SurfacePath.line (0, 0) (1, 0),
    ⟨CurveKind.line (0, 0, 0) (1, 0, 0)⟩⟩

/-- The vertex at curve parameter 0 on the u-axis of the xz-plane. -/
def originVertex : Vertex :=
  ⟨0, uAxisCurve, ⟨(0, 0), xzPlane, ⟨(0, 0, 0)⟩⟩, ⟨(0, 0, 0)⟩⟩

/-- A degenerate surface whose u-curve runs along its own sweep
direction. -/
def degenerateSurface : Surface :=
  ⟨CurveKind.line (0, 0, 0) (0, 0, 1), (0, 0, 1)⟩

/-- A local curve on the degenerate surface that coincides exactly with
the curve the vertex sweep would synthesize. -/
def degenerateCurve : Curve :=
  ⟨degenerateSurface, SurfacePath.line (0, 0) (0, 1),
    ⟨CurveKind.line (0, 0, 0) (0, 0, 1)⟩⟩

/-- A vertex on `degenerateCurve` that the vertex sweep reproduces as its
own first output vertex. -/
def degenerateVertex : Vertex :=
  ⟨0, degenerateCurve, ⟨(0, 0), degenerateSurface, ⟨(0, 0, 0)⟩⟩,
    ⟨(0, 0, 0)⟩⟩

/-- A unit line edge along the u-axis of the xz-plane, from parameter 0
to parameter 1. -/
def unitEdge : Edge :=
  ⟨uAxisCurve,
    (⟨0, uAxisCurve, ⟨(0, 0), xzPlane, ⟨(0, 0, 0)⟩⟩, ⟨(0, 0, 0)⟩⟩,
      ⟨1, uAxisCurve, ⟨(1, 0), xzPlane, ⟨(1, 0, 0)⟩⟩, ⟨(1, 0, 0)⟩⟩),
    ⟨⟨CurveKind.line (0, 0, 0) (1, 0, 0)⟩, (⟨(0, 0, 0)⟩, ⟨(1, 0, 0)⟩)⟩⟩

/-- A sweep path in positive direction. -/
def upPath : Path :=
  ⟨(0, 0, 1), false⟩

/-- A sweep path flagged as running in negative direction. -/
def downPath : Path :=
  ⟨(0, 0, -1), true⟩

/-- The face obtained by sweeping `unitEdge` along `upPath`. -/
def unitSweepFace : Face :=
  match sweepEdge unitEdge ⟨0⟩ upPath with
  | Except.ok f => f
  | Except.error _ => ⟨xzPlane, ⟨xzPlane, []⟩, ⟨0⟩⟩

/-- The face obtained by sweeping `unitEdge` along `downPath`. -/
def downSweepFace : Face :=
  match sweepEdge unitEdge ⟨0⟩ downPath with
  | Except.ok f => f
  | Except.error _ => ⟨xzPlane, ⟨xzPlane, []⟩, ⟨0⟩⟩

/-- A boundary curve shared by two faces of the demo shell. -/
def sharedCurve : BoundaryCurve :=
  ⟨(0, 0, 0), (1, 0, 0)⟩

/-- A small shell whose two faces share a boundary curve. -/
def demoShell : Shell :=
  ⟨[⟨[sharedCurve]⟩, ⟨[sharedCurve, ⟨(1, 0, 0), (1, 1, 0)⟩]⟩]⟩

lemma cacheLookupOrCompute_spec (cache : ApproxCache) (c : BoundaryCurve)
    (tolerance : ℚ) (h : validCache tolerance cache) :
    (cacheLookupOrCompute cache c tolerance).1 =
      curveApproxPoints c tolerance ∧
      validCache tolerance (cacheLookupOrCompute cache c tolerance).2 := by
  unfold cacheLookupOrCompute
  cases hf : cache.find? (fun e => decide (e.1 = c)) with
  | none =>
    refine ⟨rfl, ?_⟩
    intro e he
    rcases List.mem_cons.mp he with he | he
    · rw [he]
    · exact h e he
  | some e =>
    have hc : e.1 = c := by
      have := List.find?_some hf
      exact of_decide_eq_true this
    have hm : e ∈ cache := List.mem_of_find?_eq_some hf
    refine ⟨?_, h⟩
    show e.2 = curveApproxPoints c tolerance
    rw [h e hm, hc]

lemma boundaryApproxWithCache_spec (cs : List BoundaryCurve)
    (tolerance : ℚ) :
    ∀ cache : ApproxCache, validCache tolerance cache →
      (boundaryApproxWithCache cs tolerance cache).1 =
        boundaryApproxPure cs tolerance ∧
        validCache tolerance (boundaryApproxWithCache cs tolerance cache).2 := by
  induction cs with
  | nil => intro cache h; exact ⟨rfl, h⟩
  | cons c rest ih =>
    intro cache h
    obtain ⟨h1, h2⟩ := cacheLookupOrCompute_spec cache c tolerance h
    obtain ⟨h3, h4⟩ := ih (cacheLookupOrCompute cache c tolerance).2 h2
    refine ⟨?_, h4⟩
    show (cacheLookupOrCompute cache c tolerance).1 ++
        (boundaryApproxWithCache rest tolerance
          (cacheLookupOrCompute cache c tolerance).2).1 = _
    rw [h1, h3]
    simp [boundaryApproxPure]

lemma facesApproxWithCache_spec (fs : List ApproxFace) (tolerance : ℚ) :
    ∀ cache : ApproxCache, validCache tolerance cache →
      (facesApproxWithCache fs tolerance cache).1 =
        fs.map (fun f => boundaryApproxPure f.boundary tolerance) ∧
        validCache tolerance (facesApproxWithCache fs tolerance cache).2 := by
  induction fs with
  | nil => intro cache h; exact ⟨rfl, h⟩
  | cons f rest ih =>
    intro cache h
    obtain ⟨h1, h2⟩ :=
      boundaryApproxWithCache_spec f.boundary tolerance cache h
    obtain ⟨h3, h4⟩ := ih (faceApproxWithCache f tolerance cache).2 h2
    refine ⟨?_, h4⟩
    show (faceApproxWithCache f tolerance cache).1 ::
        (facesApproxWithCache rest tolerance
          (faceApproxWithCache f tolerance cache).2).1 = _
    rw [h3]
    show (boundaryApproxWithCache f.boundary tolerance cache).1 :: _ = _
    rw [h1]
    rfl

/-- The empty cache (a freshly created cache) is valid. -/
lemma validCache_nil (tolerance : ℚ) : validCache tolerance [] := by
  intro e he
  cases he

lemma sweepVertex_eq_ok (v : Vertex) (s : Surface) (p : Q3)
    (h1 : v.curve.globalForm.path = s.u) (h2 : p = s.v) :
    sweepVertex v s p = Except.ok (vertexSweepHalfEdge v s p) := by
  unfold sweepVertex
  rw [if_pos ⟨h1, h2⟩]

/-- The edge sweep always takes the `ok` path: the bottom edge's
vertices, by construction, satisfy both guards of the vertex sweep. -/
lemma sweepEdgeNormalized_eq (edge : Edge) (color : Color) (path : Path) :
    sweepEdgeNormalized edge color path =
      Except.ok
        ⟨sideSurface edge path,
          cycleOf (sideSurface edge path) (sweepQuad edge path), color⟩ := by
  unfold sweepEdgeNormalized sweepQuad
  rw [sweepVertex_eq_ok (bottomEdgeOf edge (sideSurface edge path)).vertices.1
      (sideSurface edge path) path.inner rfl rfl,
    sweepVertex_eq_ok (bottomEdgeOf edge (sideSurface edge path)).vertices.2
      (sideSurface edge path) path.inner rfl rfl]
  rfl

lemma edgeFirst_reverse (e : Edge) : edgeFirst e.reverse = edgeLast e := rfl

lemma edgeLast_reverse (e : Edge) : edgeLast e.reverse = edgeFirst e := rfl

lemma loopClosed_quad (a b c d : Edge)
    (hab : edgeLast a = edgeFirst b) (hbc : edgeLast b = edgeFirst c)
    (hcd : edgeLast c = edgeFirst d) (hda : edgeLast d = edgeFirst a) :
    loopClosed [a, b, c, d] := by
  intro i
  match i with
  | ⟨0, _⟩ => exact hab
  | ⟨1, _⟩ => exact hbc
  | ⟨2, _⟩ => exact hcd
  | ⟨3, _⟩ =>
    simp only [List.length_cons, List.length_nil]
    norm_num
    exact hda

/-- The orientation pass always stitches the four edges produced by the
edge sweep into a closed loop: given the endpoint shape of bottom,
side-b, top and side-a edges (for arbitrary curve parameters and global
vertices), the bottom edge is left in place and the corrected loop is
closed. -/
lemma orientationPass_spec (e0 e1 e2 e3 : Edge) (s : Surface)
    (t0 t1 : ℚ) (g0 g1 g0p g1p : GlobalVertex)
    (h0f : edgeFirst e0 = ⟨(t0, 0), s, g0⟩)
    (h0l : edgeLast e0 = ⟨(t1, 0), s, g1⟩)
    (h1f : edgeFirst e1 = ⟨(t1, 0), s, g1⟩)
    (h1l : edgeLast e1 = ⟨(t1, 1), s, g1p⟩)
    (h2f : edgeFirst e2 = ⟨(t0, 1), s, g0p⟩)
    (h2l : edgeLast e2 = ⟨(t1, 1), s, g1p⟩)
    (h3f : edgeFirst e3 = ⟨(t0, 0), s, g0⟩)
    (h3l : edgeLast e3 = ⟨(t0, 1), s, g0p⟩) :
    (orientationPass (e0, e1, e2, e3)).1 = e0 ∧
      loopClosed (quadToList (orientationPass (e0, e1, e2, e3))) := by
  have s1 : orientStep e0 e1 = e1 := by
    unfold orientStep
    rw [if_pos (h0l.trans h1f.symm)]
  set f2 := orientStep e1 e2 with hf2
  have hf2l : edgeLast f2 = ⟨(t0, 1), s, g0p⟩ := by
    by_cases hc : edgeLast e1 = edgeFirst e2
    · have heq : (⟨(t1, 1), s, g1p⟩ : SurfaceVertex) = ⟨(t0, 1), s, g0p⟩ :=
        h1l.symm.trans (hc.trans h2f)
      have ht : t1 = t0 := congrArg (fun w => w.position.1) heq
      have hg : g1p = g0p := congrArg SurfaceVertex.globalForm heq
      rw [hf2]
      unfold orientStep
      rw [if_pos hc, h2l, ht, hg]
    · rw [hf2]
      unfold orientStep
      rw [if_neg hc, edgeLast_reverse, h2f]
  have hf2f : edgeLast e1 = edgeFirst f2 := by
    by_cases hc : edgeLast e1 = edgeFirst e2
    · rw [hf2]
      unfold orientStep
      rw [if_pos hc]
      exact hc
    · rw [hf2]
      unfold orientStep
      rw [if_neg hc, edgeFirst_reverse, h1l, h2l]
  have s3 : orientStep f2 e3 = e3.reverse := by
    unfold orientStep
    rw [if_neg]
    rw [hf2l, h3f]
    intro heq
    have : ((t0, 1) : Q2) = (t0, 0) := congrArg SurfaceVertex.position heq
    have h10 : (1 : ℚ) = 0 := congrArg Prod.snd this
    exact one_ne_zero h10
  have s4 : orientStep e3.reverse e0 = e0 := by
    unfold orientStep
    rw [edgeLast_reverse, if_pos (h3f.trans h0f.symm)]
  have hpass : orientationPass (e0, e1, e2, e3) = (e0, e1, f2, e3.reverse) := by
    show (orientStep (orientStep (orientStep (orientStep e0 e1) e2) e3) e0,
      orientStep e0 e1, orientStep (orientStep e0 e1) e2,
      orientStep (orientStep (orientStep e0 e1) e2) e3) = _
    rw [s1, ← hf2, s3, s4]
  rw [hpass]
  refine ⟨rfl, ?_⟩
  refine loopClosed_quad _ _ _ _ (h0l.trans h1f.symm) hf2f ?_ ?_
  · rw [hf2l, edgeFirst_reverse, h3l]
  · rw [edgeLast_reverse, h3f, h0f]

/-- The orientation pass applied to the loop the edge sweep assembles:
the bottom edge stays first, and the corrected loop is closed. -/
lemma sweepQuad_spec (edge : Edge) (path : Path) :
    (orientationPass (sweepQuad edge path)).1 =
      bottomEdgeOf edge (sideSurface edge path) ∧
    loopClosed (quadToList (orientationPass (sweepQuad edge path))) := by
  unfold sweepQuad
  exact orientationPass_spec _ _ _ _ (sideSurface edge path)
    edge.vertices.1.position edge.vertices.2.position
    edge.vertices.1.globalForm edge.vertices.2.globalForm
    ⟨edge.vertices.1.globalForm.position + path.inner⟩
    ⟨edge.vertices.2.globalForm.position + path.inner⟩
    rfl rfl rfl rfl rfl rfl rfl rfl

/-- Every face produced by the normalized edge sweep has a closed
cycle. -/
lemma sweepEdgeNormalized_loopClosed (edge : Edge) (color : Color)
    (path : Path) (f : Face)
    (h : sweepEdgeNormalized edge color path = Except.ok f) :
    loopClosed f.cycle.edges := by
  rw [sweepEdgeNormalized_eq] at h
  injection h with h
  subst h
  exact (sweepQuad_spec edge path).2

/-- The bottom edge survives the orientation pass in first position, so
it is an edge of every face the normalized edge sweep produces. -/
lemma sweepEdgeNormalized_bottom_mem (edge : Edge) (color : Color)
    (path : Path) (f : Face)
    (h : sweepEdgeNormalized edge color path = Except.ok f) :
    bottomEdgeOf edge (sideSurface edge path) ∈ f.cycle.edges := by
  rw [sweepEdgeNormalized_eq] at h
  injection h with h
  subst h
  show bottomEdgeOf edge (sideSurface edge path) ∈
    quadToList (orientationPass (sweepQuad edge path))
  unfold quadToList
  rw [(sweepQuad_spec edge path).1]
  exact List.mem_cons_self _ _

/-- The edge sweep always succeeds and always produces a closed cycle. -/
lemma sweepEdge_ok_loopClosed (edge : Edge) (color : Color) (path : Path) :
    ∃ f : Face, sweepEdge edge color path = Except.ok f ∧
      loopClosed f.cycle.edges := by
  unfold sweepEdge
  refine ⟨_, sweepEdgeNormalized_eq _ color path, ?_⟩
  exact sweepEdgeNormalized_loopClosed _ color path _
    (sweepEdgeNormalized_eq _ color path)

lemma evalCurveKind_reverse (T : Trig) (k : CurveKind) (t : ℚ) :
    evalCurveKind T k.reverse (-t) = evalCurveKind T k t := by
  cases k with
  | line o d =>
    simp [evalCurveKind, CurveKind.reverse, smul_neg, neg_smul]
  | circle c a b =>
    simp [evalCurveKind, CurveKind.reverse, T.cos_neg, T.sin_neg, smul_neg,
      neg_smul]

/-- Evaluating a line built by `from_points_with_line_coords` at the
first given line coordinate gives the first given point. -/
lemma lineWithCoords_eval_fst (T : Trig) (t0 t1 : ℚ) (q0 q1 : Q2) :
    evalSurfacePath T (lineFromPointsWithLineCoords (t0, q0) (t1, q1)) t0 =
      q0 := by
  show q0 - t0 • ((1 / (t1 - t0)) • (q1 - q0)) +
    t0 • ((1 / (t1 - t0)) • (q1 - q0)) = q0
  abel

/-- Evaluating a line built by `from_points_with_line_coords` at the
second given line coordinate gives the second given point, provided the
two line coordinates are distinct. -/
lemma lineWithCoords_eval_snd (T : Trig) (t0 t1 : ℚ) (q0 q1 : Q2)
    (h : t1 - t0 ≠ 0) :
    evalSurfacePath T (lineFromPointsWithLineCoords (t0, q0) (t1, q1)) t1 =
      q1 := by
  show q0 - t0 • ((1 / (t1 - t0)) • (q1 - q0)) +
    t1 • ((1 / (t1 - t0)) • (q1 - q0)) = q1
  rw [smul_smul, smul_smul, mul_one_div, mul_one_div]
  have hsum : q0 - (t0 / (t1 - t0)) • (q1 - q0) +
      (t1 / (t1 - t0)) • (q1 - q0) =
      q0 + ((t1 / (t1 - t0)) - (t0 / (t1 - t0))) • (q1 - q0) := by
    rw [sub_smul]
    abel
  rw [hsum, div_sub_div_same, div_self h, one_smul]
  abel

lemma evalSurface_sideSurface (T : Trig) (e : Edge) (p : Path) (t v : ℚ) :
    evalSurface T (sideSurface e p) (t, v) =
      evalCurveKind T e.curve.globalForm.path t + v • p.inner := rfl

lemma vertexSweepHalfEdge_consistent (T : Trig) (vertex : Vertex)
    (s : Surface) (p : Q3)
    (hu : vertex.curve.globalForm.path = s.u) (hv : p = s.v)
    (hc : evalCurveKind T vertex.curve.globalForm.path vertex.position =
      vertex.globalForm.position) :
    edgeVerticesConsistent T (vertexSweepHalfEdge vertex s p) := by
  rw [hu] at hc
  constructor
  · show evalSurface T s (evalSurfacePath T
      (SurfacePath.line (vertex.position, 0)
        ((vertex.position, 1) - (vertex.position, 0)))
      0) = vertex.globalForm.position
    show evalSurface T s ((vertex.position, 0) +
      (0 : ℚ) • ((vertex.position, 1) - (vertex.position, 0))) =
      vertex.globalForm.position
    rw [zero_smul, add_zero]
    show evalCurveKind T s.u vertex.position + (0 : ℚ) • s.v =
      vertex.globalForm.position
    rw [zero_smul, add_zero, hc]
  · show evalSurface T s (evalSurfacePath T
      (SurfacePath.line (vertex.position, 0)
        ((vertex.position, 1) - (vertex.position, 0)))
      1) = vertex.globalForm.position + p
    show evalSurface T s ((vertex.position, 0) +
      (1 : ℚ) • ((vertex.position, 1) - (vertex.position, 0))) =
      vertex.globalForm.position + p
    rw [one_smul, add_sub_cancel]
    show evalCurveKind T s.u vertex.position + (1 : ℚ) • s.v =
      vertex.globalForm.position + p
    rw [one_smul, hc, hv]

lemma bottomEdgeOf_consistent (T : Trig) (e : Edge) (p : Path)
    (hc0 : evalCurveKind T e.curve.globalForm.path e.vertices.1.position =
      e.vertices.1.globalForm.position)
    (hc1 : evalCurveKind T e.curve.globalForm.path e.vertices.2.position =
      e.vertices.2.globalForm.position)
    (hne : e.vertices.1.position ≠ e.vertices.2.position) :
    edgeVerticesConsistent T (bottomEdgeOf e (sideSurface e p)) := by
  have hd : e.vertices.2.position - e.vertices.1.position ≠ 0 :=
    sub_ne_zero.mpr (Ne.symm hne)
  constructor
  · show evalSurface T (sideSurface e p) (evalSurfacePath T
      (lineFromPointsWithLineCoords
        (e.vertices.1.position, (e.vertices.1.position, 0))
        (e.vertices.2.position, (e.vertices.2.position, 0)))
      e.vertices.1.position) = e.vertices.1.globalForm.position
    rw [lineWithCoords_eval_fst, evalSurface_sideSurface, zero_smul,
      add_zero, hc0]
  · show evalSurface T (sideSurface e p) (evalSurfacePath T
      (lineFromPointsWithLineCoords
        (e.vertices.1.position, (e.vertices.1.position, 0))
        (e.vertices.2.position, (e.vertices.2.position, 0)))
      e.vertices.2.position) = e.vertices.2.globalForm.position
    rw [lineWithCoords_eval_snd T _ _ _ _ hd, evalSurface_sideSurface,
      zero_smul, add_zero, hc1]

lemma topEdgeOf_consistent (T : Trig) (e : Edge) (p : Path)
    (sides : Edge × Edge)
    (hg0 : sides.1.vertices.2.globalForm.position =
      e.vertices.1.globalForm.position + p.inner)
    (hg1 : sides.2.vertices.2.globalForm.position =
      e.vertices.2.globalForm.position + p.inner)
    (hc0 : evalCurveKind T e.curve.globalForm.path e.vertices.1.position =
      e.vertices.1.globalForm.position)
    (hc1 : evalCurveKind T e.curve.globalForm.path e.vertices.2.position =
      e.vertices.2.globalForm.position)
    (hne : e.vertices.1.position ≠ e.vertices.2.position) :
    edgeVerticesConsistent T
      (topEdgeOf (bottomEdgeOf e (sideSurface e p)) sides
        (sideSurface e p) p) := by
  have hd : e.vertices.2.position - e.vertices.1.position ≠ 0 :=
    sub_ne_zero.mpr (Ne.symm hne)
  constructor
  · show evalSurface T (sideSurface e p) (evalSurfacePath T
      (lineFromPointsWithLineCoords
        (e.vertices.1.position, (e.vertices.1.position, 1))
        (e.vertices.2.position, (e.vertices.2.position, 1)))
      e.vertices.1.position) = sides.1.vertices.2.globalForm.position
    rw [lineWithCoords_eval_fst, evalSurface_sideSurface, one_smul, hc0,
      hg0]
  · show evalSurface T (sideSurface e p) (evalSurfacePath T
      (lineFromPointsWithLineCoords
        (e.vertices.1.position, (e.vertices.1.position, 1))
        (e.vertices.2.position, (e.vertices.2.position, 1)))
      e.vertices.2.position) = sides.2.vertices.2.globalForm.position
    rw [lineWithCoords_eval_snd T _ _ _ _ hd, evalSurface_sideSurface,
      one_smul, hc1, hg1]

lemma orientationPass_mem_consistent (T : Trig)
    (q : Edge × Edge × Edge × Edge)
    (h0 : edgeVerticesConsistent T q.1)
    (h1 : edgeVerticesConsistent T q.2.1)
    (h2 : edgeVerticesConsistent T q.2.2.1)
    (h3 : edgeVerticesConsistent T q.2.2.2) :
    ∀ ed ∈ quadToList (orientationPass q), edgeVerticesConsistent T ed := by
  have hstep : ∀ prev next : Edge, edgeVerticesConsistent T next →
      edgeVerticesConsistent T (orientStep prev next) := by
    intro prev next h
    unfold orientStep
    split
    · exact h
    · exact ⟨h.2, h.1⟩
  intro ed hed
  rcases List.mem_cons.mp hed with h | hed
  · rw [h]; exact hstep _ _ h0
  rcases List.mem_cons.mp hed with h | hed
  · rw [h]; exact hstep _ _ h1
  rcases List.mem_cons.mp hed with h | hed
  · rw [h]; exact hstep _ _ h2
  rcases List.mem_cons.mp hed with h | hed
  · rw [h]; exact hstep _ _ h3
  cases hed

/-- All vertices of every edge of the cycle produced by the normalized
edge sweep satisfy local/global consistency. -/
lemma sweepEdgeNormalized_consistent (T : Trig) (e : Edge) (c : Color)
    (p : Path) (f : Face)
    (h : sweepEdgeNormalized e c p = Except.ok f)
    (hc0 : evalCurveKind T e.curve.globalForm.path e.vertices.1.position =
      e.vertices.1.globalForm.position)
    (hc1 : evalCurveKind T e.curve.globalForm.path e.vertices.2.position =
      e.vertices.2.globalForm.position)
    (hne : e.vertices.1.position ≠ e.vertices.2.position) :
    ∀ ed ∈ f.cycle.edges, edgeVerticesConsistent T ed := by
  rw [sweepEdgeNormalized_eq] at h
  injection h with h
  subst h
  refine orientationPass_mem_consistent T _ ?_ ?_ ?_ ?_
  · exact bottomEdgeOf_consistent T e p hc0 hc1 hne
  · exact vertexSweepHalfEdge_consistent T
      (bottomEdgeOf e (sideSurface e p)).vertices.2 (sideSurface e p)
      p.inner rfl rfl hc1
  · exact topEdgeOf_consistent T e p _ rfl rfl hc0 hc1 hne
  · exact vertexSweepHalfEdge_consistent T
      (bottomEdgeOf e (sideSurface e p)).vertices.1 (sideSurface e p)
      p.inner rfl rfl hc0

/-- The consistency and nondegeneracy hypotheses survive the direction
normalization, so every face produced by the full edge sweep has only
consistent vertices. -/
lemma sweepEdge_consistent (T : Trig) (e : Edge) (c : Color) (p : Path)
    (f : Face) (h : sweepEdge e c p = Except.ok f)
    (hc0 : evalCurveKind T e.curve.globalForm.path e.vertices.1.position =
      e.vertices.1.globalForm.position)
    (hc1 : evalCurveKind T e.curve.globalForm.path e.vertices.2.position =
      e.vertices.2.globalForm.position)
    (hne : e.vertices.1.position ≠ e.vertices.2.position) :
    ∀ ed ∈ f.cycle.edges, edgeVerticesConsistent T ed := by
  unfold sweepEdge normalizedInput at h
  by_cases hneg : p.isNegativeDirection = true
  · rw [if_pos hneg] at h
    refine sweepEdgeNormalized_consistent T _ c p f h ?_ ?_ ?_
    · show evalCurveKind T e.curve.globalForm.path.reverse
        (-e.vertices.2.position) = e.vertices.2.globalForm.position
      rw [evalCurveKind_reverse]
      exact hc1
    · show evalCurveKind T e.curve.globalForm.path.reverse
        (-e.vertices.1.position) = e.vertices.1.globalForm.position
      rw [evalCurveKind_reverse]
      exact hc0
    · show -e.vertices.2.position ≠ -e.vertices.1.position
      intro hh
      exact hne (neg_injective hh).symm
  · rw [if_neg hneg] at h
    exact sweepEdgeNormalized_consistent T e c p f h hc0 hc1 hne

end Fj

open Fj

/-- C1: for every Vertex produced by any sweep operation (the vertex
sweep producing a HalfEdge and the edge sweep producing a Face),
evaluating the Vertex's Curve's parametrization at the Vertex's 1-D
curve coordinate, and then the owning Surface's parametrization at the
resulting 2-D surface coordinate, equals the position stored in the
Vertex's referenced GlobalVertex — for any trigonometric interpretation,
assuming the input vertices are themselves consistent with their curve's
global form, and (for the edge sweep) that the swept edge is not
degenerate (its two vertices sit at distinct curve parameters). -/
theorem sweep_local_global_consistency :
    (∀ (T : Trig) (v : Vertex) (s : Surface) (p : Q3) (he : HalfEdge),
      sweepVertex v s p = Except.ok he →
      evalCurveKind T v.curve.globalForm.path v.position =
        v.globalForm.position →
      vertexConsistent T he.vertices.1 ∧ vertexConsistent T he.vertices.2) ∧
    (∀ (T : Trig) (e : Edge) (c : Color) (p : Path) (f : Face),
      sweepEdge e c p = Except.ok f →
      evalCurveKind T e.curve.globalForm.path e.vertices.1.position =
        e.vertices.1.globalForm.position →
      evalCurveKind T e.curve.globalForm.path e.vertices.2.position =
        e.vertices.2.globalForm.position →
      e.vertices.1.position ≠ e.vertices.2.position →
      ∀ ed ∈ f.cycle.edges,
        vertexConsistent T ed.vertices.1 ∧
        vertexConsistent T ed.vertices.2) := by
  constructor
  · intro T v s p he h hc
    unfold sweepVertex at h
    by_cases hcond : v.curve.globalForm.path = s.u ∧ p = s.v
    · rw [if_pos hcond] at h
      injection h with h
      subst h
      exact vertexSweepHalfEdge_consistent T v s p hcond.1 hcond.2 hc
    · rw [if_neg hcond] at h
      exact Except.noConfusion h
  · intro T e c p f h hc0 hc1 hne
    exact sweepEdge_consistent T e c p f h hc0 hc1 hne

/-- Witness for C1: the consistency conclusions at concrete inputs, with
every hypothesis discharged there (the vertex sweep of the origin vertex
of the xz-plane along the z-direction, and the bottom edge of the sweep
of the unit edge along the same direction). -/
theorem sweep_local_global_consistency_witness :
    (vertexConsistent constTrig
      (vertexSweepHalfEdge originVertex xzPlane (0, 0, 1)).vertices.1 ∧
      vertexConsistent constTrig
        (vertexSweepHalfEdge originVertex xzPlane (0, 0, 1)).vertices.2) ∧
    vertexConsistent constTrig
      (bottomEdgeOf unitEdge (sideSurface unitEdge upPath)).vertices.1 := by
  constructor
  · refine sweep_local_global_consistency.1 constTrig originVertex xzPlane
      (0, 0, 1) _ (sweepVertex_eq_ok _ _ _ rfl rfl) ?_
    show evalCurveKind constTrig (CurveKind.line (0, 0, 0) (1, 0, 0)) 0 =
      (0, 0, 0)
    simp [evalCurveKind]
  · have hok : sweepEdge unitEdge ⟨0⟩ upPath = Except.ok _ :=
      sweepEdgeNormalized_eq unitEdge ⟨0⟩ upPath
    have h := sweep_local_global_consistency.2 constTrig unitEdge ⟨0⟩
      upPath _ hok ?_ ?_ ?_
    · exact (h (bottomEdgeOf unitEdge (sideSurface unitEdge upPath))
        (sweepEdgeNormalized_bottom_mem unitEdge ⟨0⟩ upPath _
          (sweepEdgeNormalized_eq unitEdge ⟨0⟩ upPath))).1
    · show evalCurveKind constTrig (CurveKind.line (0, 0, 0) (1, 0, 0)) 0 =
        (0, 0, 0)
      simp [evalCurveKind]
    · show evalCurveKind constTrig (CurveKind.line (0, 0, 0) (1, 0, 0)) 1 =
        (1, 0, 0)
      simp [evalCurveKind]
    · show (0 : ℚ) ≠ 1
      norm_num

/-- C2: the edge sweep never silently returns a malformed Cycle: for
every input it succeeds with a face whose 4-edge cycle is closed, so the
condition "after the orientation pass some adjacent pair still fails to
match" (the `InconsistentLoop` case) never arises. -/
theorem edge_sweep_no_malformed_cycle (e : Edge) (c : Color) (p : Path) :
    ∃ f : Face, sweepEdge e c p = Except.ok f ∧ loopClosed f.cycle.edges :=
  sweepEdge_ok_loopClosed e c p

/-- C3: whenever the vertex sweep's precondition fails — the vertex's
curve's global form differs from the surface's u-curve, or the path
differs from the surface's v-direction — the operation aborts with the
contract failure `InvalidSweepInput` and produces no best-effort
half-edge. -/
theorem vertex_sweep_invalid_input_aborts (v : Vertex) (s : Surface)
    (p : Q3) (h : v.curve.globalForm.path ≠ s.u ∨ p ≠ s.v) :
    sweepVertex v s p = Except.error SweepError.invalidSweepInput := by
  unfold sweepVertex
  rw [if_neg]
  intro hc
  rcases h with h | h
  · exact h hc.1
  · exact h hc.2

/-- Witness for C3: a concrete input violating the path precondition is
rejected. -/
theorem vertex_sweep_invalid_input_aborts_witness :
    (((1, 0, 0) : Q3) ≠ xzPlane.v) ∧
    sweepVertex originVertex xzPlane (1, 0, 0) =
      Except.error SweepError.invalidSweepInput :=
  ⟨by decide,
    vertex_sweep_invalid_input_aborts originVertex xzPlane (1, 0, 0)
      (Or.inr (by decide))⟩

/-- C4 counterexample: at a concrete input whose vertex lies on exactly
the curve the sweep synthesizes, the vertex sweep succeeds and its first
output vertex is the input vertex itself — the source comments on this
very edge case and ignores it. -/
theorem vertex_sweep_input_vertex_reappears :
    sweepVertex degenerateVertex degenerateSurface (0, 0, 1) =
      Except.ok
        (vertexSweepHalfEdge degenerateVertex degenerateSurface (0, 0, 1)) ∧
    (vertexSweepHalfEdge degenerateVertex degenerateSurface
      (0, 0, 1)).vertices.1 = degenerateVertex := by
  refine ⟨sweepVertex_eq_ok _ _ _ rfl rfl, ?_⟩
  simp [vertexSweepHalfEdge, sweepGlobalVertex, lineFromPoints2,
    lineFromPoints3, degenerateVertex, degenerateCurve, degenerateSurface]

/-- C4 (amended): for every vertex sweep satisfying the precondition,
the resulting half-edge's two vertices lie at surface coordinates
`(t, 0)` and `(t, 1)` where `t` is the input vertex's curve parameter,
its local curve is the straight line through those two points, and —
provided the input vertex's curve differs from the output edge's curve —
neither output vertex is the input vertex. -/
theorem vertex_sweep_halfedge_shape (v : Vertex) (s : Surface) (p : Q3)
    (he : HalfEdge) (h : sweepVertex v s p = Except.ok he) :
    he.vertices.1.surfaceForm.position = (v.position, 0) ∧
    he.vertices.2.surfaceForm.position = (v.position, 1) ∧
    he.curve.kind = SurfacePath.line (v.position, 0) (0, 1) ∧
    (v.curve ≠ he.curve → v ≠ he.vertices.1 ∧ v ≠ he.vertices.2) := by
  unfold sweepVertex at h
  by_cases hcond : v.curve.globalForm.path = s.u ∧ p = s.v
  · rw [if_pos hcond] at h
    injection h with h
    subst h
    refine ⟨rfl, rfl, ?_, ?_⟩
    · show lineFromPoints2 (v.position, 0) (v.position, 1) = _
      unfold lineFromPoints2
      simp
    · intro hne
      constructor
      · intro he1
        exact hne (congrArg Vertex.curve he1)
      · intro he2
        exact hne (congrArg Vertex.curve he2)
  · rw [if_neg hcond] at h
    exact Except.noConfusion h

/-- Witness for the amended C4: the concrete vertex sweep of scenario A,
with both hypotheses discharged. -/
theorem vertex_sweep_halfedge_shape_witness :
    (vertexSweepHalfEdge originVertex xzPlane
      (0, 0, 1)).vertices.1.surfaceForm.position =
      (originVertex.position, 0) ∧
    originVertex ≠
      (vertexSweepHalfEdge originVertex xzPlane (0, 0, 1)).vertices.1 ∧
    originVertex ≠
      (vertexSweepHalfEdge originVertex xzPlane (0, 0, 1)).vertices.2 := by
  have h := vertex_sweep_halfedge_shape originVertex xzPlane (0, 0, 1) _
    (sweepVertex_eq_ok _ _ _ rfl rfl)
  have hcne : originVertex.curve ≠
      (vertexSweepHalfEdge originVertex xzPlane (0, 0, 1)).curve := by
    intro hc
    have hk := congrArg Curve.kind hc
    simp [originVertex, uAxisCurve, vertexSweepHalfEdge, lineFromPoints2]
      at hk
  exact ⟨h.1, (h.2.2.2 hcne).1, (h.2.2.2 hcne).2⟩

/-- C5: the edge sweep assembles the loop `[bottom, side_b, top, side_a]`
and runs the orientation pass over it (walking cyclically, comparing
surface-local endpoint vertices and reversing the second edge of a
mismatching pair); the resulting cycle's consecutive edges — including
last-to-first — share a surface-local endpoint. -/
theorem edge_sweep_orientation_pass_closure (e : Edge) (c : Color)
    (p : Path) (f : Face) (h : sweepEdge e c p = Except.ok f) :
    f.cycle.edges =
      quadToList (orientationPass (sweepQuad (normalizedInput e p) p)) ∧
    loopClosed f.cycle.edges := by
  unfold sweepEdge at h
  rw [sweepEdgeNormalized_eq] at h
  injection h with h
  subst h
  exact ⟨rfl, (sweepQuad_spec (normalizedInput e p) p).2⟩

/-- Witness for C5: the sweep of the unit edge along the z-direction. -/
theorem edge_sweep_orientation_pass_closure_witness :
    (⟨sideSurface unitEdge upPath,
      cycleOf (sideSurface unitEdge upPath) (sweepQuad unitEdge upPath),
      ⟨0⟩⟩ : Face).cycle.edges =
      quadToList
        (orientationPass (sweepQuad (normalizedInput unitEdge upPath)
          upPath)) ∧
    loopClosed (⟨sideSurface unitEdge upPath,
      cycleOf (sideSurface unitEdge upPath) (sweepQuad unitEdge upPath),
      ⟨0⟩⟩ : Face).cycle.edges :=
  edge_sweep_orientation_pass_closure unitEdge ⟨0⟩ upPath _
    (sweepEdgeNormalized_eq unitEdge ⟨0⟩ upPath)

/-- C6: if the path runs opposite the edge's intrinsic direction, the
edge (including its curve) is reversed before any other step; and the
produced face's cycle satisfies loop closure regardless of the sign of
the swept edge's direction relative to the path. -/
theorem edge_sweep_direction_normalization :
    (∀ (e : Edge) (c : Color) (p : Path), p.isNegativeDirection = true →
      sweepEdge e c p = sweepEdgeNormalized e.reverseIncludingCurve c p) ∧
    (∀ (e : Edge) (c : Color) (p : Path) (f : Face),
      sweepEdge e c p = Except.ok f → loopClosed f.cycle.edges) := by
  constructor
  · intro e c p h
    unfold sweepEdge normalizedInput
    rw [if_pos h]
  · intro e c p f h
    unfold sweepEdge at h
    exact sweepEdgeNormalized_loopClosed _ c p f h

/-- Witness for C6: a negatively-flagged path triggers the reversal, and
the concrete sweep along it yields a closed cycle. -/
theorem edge_sweep_direction_normalization_witness :
    sweepEdge unitEdge ⟨0⟩ downPath =
      sweepEdgeNormalized unitEdge.reverseIncludingCurve ⟨0⟩ downPath ∧
    loopClosed (⟨sideSurface (normalizedInput unitEdge downPath) downPath,
      cycleOf (sideSurface (normalizedInput unitEdge downPath) downPath)
        (sweepQuad (normalizedInput unitEdge downPath) downPath),
      ⟨0⟩⟩ : Face).cycle.edges :=
  ⟨edge_sweep_direction_normalization.1 unitEdge ⟨0⟩ downPath rfl,
    edge_sweep_direction_normalization.2 unitEdge ⟨0⟩ downPath _
      (sweepEdgeNormalized_eq (normalizedInput unitEdge downPath) ⟨0⟩
        downPath)⟩

/-- C7: the top edge's GlobalEdge is built directly from the two side
edges' far global vertices, and each of the top edge's vertices
references exactly the far global vertex of the corresponding side
edge. -/
theorem top_edge_global_vertices_from_sides (bottom : Edge)
    (sides : Edge × Edge) (s : Surface) (p : Path) :
    (topEdgeOf bottom sides s p).globalForm.vertices =
      (sides.1.vertices.2.globalForm, sides.2.vertices.2.globalForm) ∧
    (topEdgeOf bottom sides s p).vertices.1.globalForm =
      sides.1.vertices.2.globalForm ∧
    (topEdgeOf bottom sides s p).vertices.2.globalForm =
      sides.2.vertices.2.globalForm :=
  ⟨rfl, rfl, rfl⟩

/-- C8: approximation is a deterministic function of (entity, tolerance):
approximating a shell twice with any two valid caches — in particular two
separate freshly created ones — yields point-for-point identical
tessellations. -/
theorem shell_approx_deterministic (s : Shell) (tolerance : ℚ)
    (cacheA cacheB : ApproxCache)
    (hA : validCache tolerance cacheA) (hB : validCache tolerance cacheB) :
    (shellApproxWithCache s tolerance cacheA).1 =
      (shellApproxWithCache s tolerance cacheB).1 := by
  unfold shellApproxWithCache
  rw [(facesApproxWithCache_spec s.faces tolerance cacheA hA).1,
    (facesApproxWithCache_spec s.faces tolerance cacheB hB).1]

/-- Witness for C8: two separate caches (one fresh, one prefilled with a
valid entry) produce identical tessellations of the demo shell. -/
theorem shell_approx_deterministic_witness :
    validCache 1 [] ∧
    validCache 1 [(sharedCurve, curveApproxPoints sharedCurve 1)] ∧
    (shellApproxWithCache demoShell 1 []).1 =
      (shellApproxWithCache demoShell 1
        [(sharedCurve, curveApproxPoints sharedCurve 1)]).1 := by
  have hv : validCache 1 [(sharedCurve, curveApproxPoints sharedCurve 1)] := by
    intro e he
    rw [List.mem_singleton.mp he]
  exact ⟨validCache_nil 1, hv,
    shell_approx_deterministic demoShell 1 _ _ (validCache_nil 1) hv⟩

/-- C9: splitting the `below` child of a branch relinks the parent's
`above` field instead of `below` (the slip the source flags on itself),
so after splitting the root and then the root's below-child, `parent_of`
on the untouched leaf 0 hits the panic branch instead of returning a
relation. -/
theorem tree_split_below_breaks_parent_links :
    (Trap.splitBelowTwice.map (fun t => t.parent_of 0)) =
      some Trap.ParentQuery.panicked := by
  decide

/-- C10: the trapezoidation vertex ordering satisfies
`is_lower a b = is_upper b a`, is irreflexive in both directions, ranks
larger y as upper, and on equal y ranks smaller x as upper. -/
theorem trapezoidation_vertex_ordering :
    (∀ a b : Trap.Vertex, a.is_lower b = b.is_upper a) ∧
    (∀ v : Trap.Vertex, v.is_upper v = false ∧ v.is_lower v = false) ∧
    (∀ a b : Trap.Vertex, b.y < a.y → a.is_upper b = true) ∧
    (∀ a b : Trap.Vertex, a.y = b.y → a.x < b.x → a.is_upper b = true) := by
  refine ⟨fun a b => rfl, fun v => ?_, fun a b h => ?_, fun a b h h' => ?_⟩
  · constructor <;>
      simp [Trap.Vertex.is_upper, Trap.Vertex.is_lower, lt_irrefl]
  · unfold Trap.Vertex.is_upper
    rw [if_pos h]
  · unfold Trap.Vertex.is_upper
    have h1 : ¬(a.y > b.y) := by rw [h]; exact lt_irrefl _
    have h2 : ¬(a.y < b.y) := by rw [h]; exact lt_irrefl _
    rw [if_neg h1, if_neg h2, if_pos h, if_pos h']

/-- Witness for C10: the ordering's conditional conjuncts at concrete
vertices. -/
theorem trapezoidation_vertex_ordering_witness :
    ((0 : ℚ) < 1 ∧ Trap.Vertex.is_upper ⟨0, 1⟩ ⟨0, 0⟩ = true) ∧
    Trap.Vertex.is_upper ⟨0, 0⟩ ⟨1, 0⟩ = true :=
  ⟨⟨by norm_num,
      trapezoidation_vertex_ordering.2.2.1 ⟨0, 1⟩ ⟨0, 0⟩ (by norm_num)⟩,
    trapezoidation_vertex_ordering.2.2.2 ⟨0, 0⟩ ⟨1, 0⟩ rfl (by norm_num)⟩
